import Mathlib

/-!
Verification of the `voice` silence-trimming service against its
natural-language specification.

The development shallowly embeds the parts of the Rust source that the
claims are about:

* `voice-analyzer/src/ffmpeg.rs` — the silence analyser: the
  `OutputParser` state machine, `VideoAnalysis::new`, and
  `FFmpeg::analyze_silence` (duration extraction from stderr, the stdout
  line loop, the empty-ranges check, the `silence_end` synthesis, and
  the argv passed to the transcoder).
* `src/web.rs` — the job registry: `TaskManager::cleanup_tasks`,
  `TaskManager::new_task`, and the `videos` download handler.

Modelling conventions: Rust `f32` values are modelled as exact rationals
(the claims are about interval structure, not floating-point rounding);
Rust strings are modelled as `List Char` (ffmpeg's metadata and banner
output is ASCII, so char indices and byte indices agree); time instants
(`time::OffsetDateTime`) are modelled as integers counting minutes; a
Rust panic (`unwrap` of `None`, out-of-bounds indexing) is modelled as a
distinguished result constructor.
-/

namespace Voice

/-! ### String helpers (modelling the Rust `str` operations used) -/

/-- Model of `str::starts_with` on char lists. -/
def startsWithL : List Char → List Char → Bool
  | _, [] => true
  | [], _ :: _ => false
  | a :: as, b :: bs => a == b && startsWithL as bs

/-- Model of `str::trim` (ASCII whitespace; ffmpeg output is ASCII). -/
def trimL (cs : List Char) : List Char :=
  ((cs.dropWhile Char.isWhitespace).reverse.dropWhile Char.isWhitespace).reverse

/-- Model of `str::find(pat)`: index of the first occurrence of `pat`. -/
def findSub : List Char → List Char → Option Nat
  | [], pat => if pat.isEmpty then some 0 else none
  | c :: rest, pat =>
    if startsWithL (c :: rest) pat then some 0
    else (findSub rest pat).map (· + 1)

/-- Model of `str::split_once(sep)` for a one-char separator. -/
def splitOnceL : List Char → Char → Option (List Char × List Char)
  | [], _ => none
  | c :: rest, sep =>
    if c == sep then some ([], rest)
    else (splitOnceL rest sep).map (fun p => (c :: p.1, p.2))

/-- Model of `str::split(sep)` for a one-char separator: always returns
at least one (possibly empty) piece, like the Rust iterator. -/
def splitAllL : List Char → Char → List (List Char)
  | [], _ => [[]]
  | c :: rest, sep =>
    if c == sep then [] :: splitAllL rest sep
    else
      match splitAllL rest sep with
      | [] => [[c]]
      | p :: ps => (c :: p) :: ps

/-- Digits of a char list folded into a natural number (helper for the
float parser). -/
def digitsToNat (acc : Nat) : List Char → Nat
  | [] => acc
  | c :: cs => digitsToNat (acc * 10 + (c.toNat - '0'.toNat)) cs

/-- Exact rational multiplication, spelled through `mkRat` so that it
evaluates inside the kernel (the `Mul ℚ` instance does not). -/
def rmul (a b : ℚ) : ℚ := mkRat (a.num * b.num) (a.den * b.den)

/-- Exact rational addition, spelled through `mkRat` so that it
evaluates inside the kernel (the `Add ℚ` instance does not). -/
def radd (a b : ℚ) : ℚ :=
  mkRat (a.num * (b.den : ℤ) + b.num * (a.den : ℤ)) (a.den * b.den)

/-- Exact rational negation through `mkRat`. -/
def rneg (a : ℚ) : ℚ := mkRat (-a.num) a.den

/-- Unsigned part of the `f32` grammar: `digits`, `digits.digits`,
`digits.` or `.digits`.  The analyser only ever parses the plain decimal
numbers ffmpeg prints, so the exponent/inf/nan part of Rust's float
grammar is not modelled. -/
def parseUnsigned? (cs : List Char) : Option ℚ :=
  let intPart := cs.takeWhile Char.isDigit
  let rest := cs.dropWhile Char.isDigit
  match rest with
  | [] => if intPart.isEmpty then none else some (mkRat (digitsToNat 0 intPart) 1)
  | '.' :: frac =>
    if frac.all Char.isDigit && (!intPart.isEmpty || !frac.isEmpty) then
      some (mkRat (digitsToNat 0 intPart * 10 ^ frac.length + digitsToNat 0 frac)
        (10 ^ frac.length))
    else none
  | _ => none

/-- Model of `str::parse::<f32>()` (finite decimal fragment, exact). -/
def parseF32? : List Char → Option ℚ
  | '-' :: cs => (parseUnsigned? cs).map rneg
  | '+' :: cs => parseUnsigned? cs
  | cs => parseUnsigned? cs

/-! ### `voice-analyzer/src/ffmpeg.rs` — the silence analyser -/

/-- Rust `Range<f32>` (`start..end`); the field `end` is a Lean keyword
and is rendered `stop`. -/
structure RangeF where
  start : ℚ
  stop : ℚ
deriving DecidableEq

/-- Rust `io::Error` as produced by the analyser's parser: `invalidData line`
is `ok_or(io::Error::new(InvalidData, line))` on a recognised-prefix
line that does not carry the expected key, `floatError line` is the
`map_err` of a failed `parse::<f32>()`. -/
inductive IOError where
  | invalidData (line : List Char)
  | floatError (line : List Char)
deriving DecidableEq

/-- The `OutputParser` state machine: expecting `silence_start`,
expecting `silence_end` (holding the start), expecting
`silence_duration` (holding start and end). -/
inductive OutputParser where
  | Start : OutputParser
  | End : ℚ → OutputParser
  | Duration : ℚ → ℚ → OutputParser
deriving DecidableEq

/-- Model of `OutputParser::parse_line(line, postfix)`: if the trimmed line
starts with `lavfi.silence_<key>=`, parse the remainder of the
*untrimmed* line (`line.split_at(starts.len()).1`) as `f32`; a
recognised key with an unparsable number is an error, any other line is
`Ok(None)`. `key` stands for the Rust parameter whose name is the
keyword family `post`/`fix`. -/
def parse_line (line : List Char) (key : List Char) :
    Except IOError (Option ℚ) :=
  let trimmed := trimL line
  let starts := "lavfi.silence_".toList ++ key ++ "=".toList
  if startsWithL trimmed starts then
    match parseF32? (line.drop starts.length) with
    | some n => .ok (some n)
    | none => .error (.floatError line)
  else .ok none

/-- Model of `OutputParser::next(line)`: one step of the state machine.  In the
`Start` and `End` states a line whose `parse_line` is `Ok(None)` is
turned into `InvalidData` by `ok_or`; in the `Duration` state the line
is consumed without inspection and the held interval is emitted. -/
def OutputParser.next : OutputParser → List Char →
    Except IOError (OutputParser × Option RangeF)
  | .Start, line =>
    match parse_line line "start".toList with
    | .error e => .error e
    | .ok none => .error (.invalidData line)
    | .ok (some v) => .ok (.End v, none)
  | .End start, line =>
    match parse_line line "end".toList with
    | .error e => .error e
    | .ok none => .error (.invalidData line)
    | .ok (some v) => .ok (.Duration start v, none)
  | .Duration start stop, _ => .ok (.Start, some ⟨start, stop⟩)

deriving instance DecidableEq for Except

/-- The stdout loop of `analyze_silence`: lines not starting with
`lavfi` are skipped; the others are fed to the state machine, emitted
ranges are pushed in order. -/
def processLines : List (List Char) → OutputParser → List RangeF →
    Except IOError (OutputParser × List RangeF)
  | [], st, acc => .ok (st, acc)
  | l :: ls, st, acc =>
    if startsWithL l "lavfi".toList then
      match st.next l with
      | .error e => .error e
      | .ok (st2, some r) => processLines ls st2 (acc ++ [r])
      | .ok (st2, none) => processLines ls st2 acc
    else processLines ls st acc

/-- The `VideoAnalysis { audible, inaudible, duration }` record. -/
structure VideoAnalysis where
  audible : List RangeF
  inaudible : List RangeF
  duration : ℚ
deriving DecidableEq

/-- The `audible` list computed by `VideoAnalysis::new` on a non-empty
`silence` vector: the fold pushes `prev..range.start` for each silent
range starting from `prev = 0.0`; the head interval
`0.0..silence[0].start` is then *inserted at position 0* and the tail
`last.end..duration` pushed; finally zero-length periods are filtered
out.  (On `[]` — unreachable through `analyze_silence` — it returns
`[]`.) -/
def audibleOf (silence : List RangeF) (duration : ℚ) : List RangeF :=
  match silence with
  | [] => []
  | s0 :: rest =>
    let head : RangeF := ⟨0, s0.start⟩
    let tail : RangeF := ⟨(List.getLast (s0 :: rest) (by simp)).stop, duration⟩
    let folded :=
      ((s0 :: rest).foldl
        (fun (acc : List RangeF × ℚ) r => (acc.1 ++ [⟨acc.2, r.start⟩], r.stop))
        ([], 0)).1
    (head :: folded ++ [tail]).filter (fun x => x.start != x.stop)

/-- Model of `VideoAnalysis::new(silence, duration)`.  `none` models the panics
on an empty `silence` vector (`silence[0]` and
`silence.last().unwrap()`); otherwise the audible list is `audibleOf`
and `inaudible` is the silence vector itself. -/
def VideoAnalysis.new? (silence : List RangeF) (duration : ℚ) :
    Option VideoAnalysis :=
  match silence with
  | [] => none
  | s0 :: rest => some ⟨audibleOf (s0 :: rest) duration, s0 :: rest, duration⟩

/-- The `FFmpegError` type: `FFmpeg(stderr_text)` or a wrapped `io::Error`
(variant renamed `ioErr` as `IO` is reserved here). -/
inductive FFmpegError where
  | FFmpeg (msg : List Char)
  | ioErr (e : IOError)
deriving DecidableEq

/-- The duration extraction of `analyze_silence` (the block commented
"coded in epic hurry"): find the first `"Duration: "`, take everything
after it up to the first comma, trim, split on `:`, parse each piece as
`f32`, combine `h*3600 + m*60 + s`.  `none` models each `.unwrap()`
panic: absent `"Duration: "`, absent comma, an unparsable piece, fewer
than three pieces (`split[2]` out of bounds), or a negative total
(`Duration::from_secs_f32` panics on negative input). -/
def extractDuration (stderr : List Char) : Option ℚ :=
  match findSub stderr "Duration: ".toList with
  | none => none
  | some i =>
    let after := stderr.drop (i + ("Duration: ".toList).length)
    match splitOnceL after ',' with
    | none => none
    | some (before, _) =>
      match (splitAllL (trimL before) ':').mapM parseF32? with
      | none => none
      | some (h :: m :: s :: _) =>
        let total := radd (radd (rmul h (mkRat 3600 1)) (rmul m (mkRat 60 1))) s
        if total < 0 then none else some total
      | some _ => none

/-- Outcome of one `analyze_silence` run.  The two `panic` constructors
model the reachable `unwrap`/indexing panics: `panicDuration` for the
stderr duration block, `panicNew` for the `silence[0]` /
`silence.last().unwrap()` accesses inside `VideoAnalysis::new`. -/
inductive AnalyzeResult where
  | ok (v : VideoAnalysis)
  | err (e : FFmpegError)
  | panicDuration
  | panicNew
deriving DecidableEq

/-- Model of `FFmpeg::analyze_silence`, as a function of the child's stdout
(split into lines), its captured stderr text, and whether the process
exited successfully.  Mirrors the source order: exit-status check, then
duration extraction from stderr, then the stdout line loop, then the
empty-ranges check, then the `silence_end` synthesis for a dangling
`End` state, then `VideoAnalysis::new`. -/
def analyze_silence (stdoutLines : List (List Char)) (stderr : List Char)
    (exitSuccess : Bool) : AnalyzeResult :=
  if !exitSuccess then .err (.FFmpeg stderr)
  else
    match extractDuration stderr with
    | none => .panicDuration
    | some dur =>
      match processLines stdoutLines .Start [] with
      | .error e => .err (.ioErr e)
      | .ok (st, ranges) =>
        if ranges.isEmpty then
          .err (.FFmpeg "Video does not contain silence".toList)
        else
          let ranges :=
            match st with
            | .End start => ranges ++ [⟨start, dur⟩]
            | _ => ranges
          match VideoAnalysis.new? ranges dur with
          | none => .panicNew
          | some v => .ok v

/-- The constant `SILENCEDETECT_NOISE` from `voice-analyzer/src/ffmpeg.rs`. -/
def SILENCEDETECT_NOISE : List Char := "-40dB".toList

/-- The constant `SILENCEDETECT_DURATION` from `voice-analyzer/src/ffmpeg.rs`. -/
def SILENCEDETECT_DURATION : List Char := "0.1".toList

/-- The `-af` filter string built by `analyze_silence`. -/
def silencedetectFilter : List Char :=
  "silencedetect=noise=".toList ++ SILENCEDETECT_NOISE ++ ":d=".toList ++
    SILENCEDETECT_DURATION ++ ",ametadata=mode=print:file=-".toList

/-- The argument list of the analyser's ffmpeg invocation:
`prepare_command` contributes `-i <input>`, then `analyze_silence` adds
`-vn -hide_banner -af <filter> -f null -`. -/
def analyzeSilenceArgs (input : List Char) : List (List Char) :=
  ["-i".toList, input, "-vn".toList, "-hide_banner".toList, "-af".toList,
    silencedetectFilter, "-f".toList, "null".toList, "-".toList]

/-- The `-af` filter of the legacy `detect_silence` in `src/ffmpeg.rs`
(the historical GUI variant). -/
def legacySilencedetectFilter : List Char :=
  "silencedetect=noise=-50dB:d=0.05,ametadata=print:file=-".toList

/-- The argument string of the legacy `detect_silence` in
`src/ffmpeg.rs`, split on whitespace as `spawn_ffmpeg` does. -/
def detectSilenceArgs (file : List Char) : List (List Char) :=
  ["-i".toList, file, "-vn".toList, "-af".toList, legacySilencedetectFilter,
    "-f".toList, "null".toList, "nul".toList]

/-- Strict ascension of an interval list: each interval ends no later
than the next begins (adjacent intervals may touch). -/
def chainOrdered : List RangeF → Bool
  | [] => true
  | [_] => true
  | a :: b :: rest => decide (a.stop ≤ b.start) && chainOrdered (b :: rest)

/-- The spec's audible-list invariant: strictly ascending and
non-overlapping, zero-length free, and contained in `[0, dur]`. -/
def audibleOrdered (l : List RangeF) (dur : ℚ) : Bool :=
  chainOrdered l &&
    l.all (fun r =>
      decide (0 ≤ r.start) && decide (r.start < r.stop) && decide (r.stop ≤ dur))

/-! ### `src/web.rs` — the job registry (`TaskManager`)

The `Task` module that `web.rs` imports (`crate::task::{Task, TaskId,
TaskStatus, TaskUpdateMessage}`) is not part of the snapshot (the
`task.rs` present is the obsolete `EncodingTask` stage chain), so the
status type is modelled from the spec and from the patterns `web.rs`
matches on. -/

/-- The `TaskId` type — 64-bit in Rust; the registry claims do not involve
wrap-around arithmetic, so plain naturals suffice. -/
abbrev TaskId := ℕ

/-- Modelled from the spec: the `TaskStatus` variants of the missing
`task` module, with the payloads `web.rs` destructures —
`InProgress { progress, speed }`, `Error(message)` and
`Completed { end_time }`.  Instants are integers counting minutes. -/
inductive TaskStatus where
  | InProgress (progress speed : ℚ)
  | Error (msg : List Char)
  | Completed (end_time : ℤ)
deriving DecidableEq

/-- Modelled from the spec: a registered Job as the registry claims see
it — its last published status, plus the spec's optional `completed_at`
instant (set on the first terminal transition; `web.rs` itself never
reads it, which is the point of claim C3). -/
structure VTask where
  status : TaskStatus
  completed_at : Option ℤ
deriving DecidableEq

/-- The registry map `HashMap<TaskId, Task>` as an association list
with unique keys (iteration order is irrelevant to every claim). -/
abbrev TaskMap := List (TaskId × VTask)

/-- The test `task.last_status()` matched against `TaskStatus::Completed` with
`end_time + Duration::minutes(retention) < now` — the per-task deletion
test of `cleanup_tasks`.  Statuses other than `Completed` never match. -/
def expired (retention now : ℤ) (t : VTask) : Bool :=
  match t.status with
  | .Completed e => decide (e + retention < now)
  | _ => false

/-- Model of `TaskManager::cleanup_tasks`: collect the keys of tasks whose
status matches `Completed { end_time }` with
`end_time + retention < now`, then `retain` the entries whose key was
not collected. -/
def cleanup_tasks (tasks : TaskMap) (retention now : ℤ) : TaskMap :=
  let keys_to_delete :=
    (tasks.filter (fun kv => expired retention now kv.2)).map Prod.fst
  tasks.filter (fun kv => !(keys_to_delete.contains kv.1))

/-- Model of `HashMap::insert`: the new binding replaces any existing binding of
the same key; all other bindings are kept. -/
def mapInsert (m : TaskMap) (k : TaskId) (v : VTask) : TaskMap :=
  (k, v) :: m.filter (fun kv => decide (kv.1 ≠ k))

/-- Model of `HashMap::get` (via `TaskManager::get_task`). -/
def mapGet (m : TaskMap) (k : TaskId) : Option VTask :=
  (m.find? (fun kv => kv.1 == k)).map Prod.snd

/-- Model of `TaskManager::new_task`, given the freshly generated id and the
constructed task: the input file is written, the task built, and the
pair unconditionally inserted — there is no check whether `task_id` is
already a key.  Returns the updated map and the `Ok(task_id)` result. -/
def new_task (tasks : TaskMap) (task_id : TaskId) (task : VTask) :
    TaskMap × TaskId :=
  (mapInsert tasks task_id task, task_id)

/-- Response of the `videos` download handler: `NotFound`, or the
streamed bytes of the output file `outputs_dir/{id}`. -/
inductive VideosResponse where
  | notFound (msg : List Char)
  | stream (id : TaskId)
deriving DecidableEq

/-- The guard at the top of `videos`: the task exists in the registry
and its last status matches `TaskStatus::InProgress { .. }`. -/
def inProgressGuard (tasks : TaskMap) (task_id : TaskId) : Bool :=
  match mapGet tasks task_id with
  | some t =>
    match t.status with
    | .InProgress _ _ => true
    | _ => false
  | none => false

/-- The `videos` handler, with the filesystem abstracted as the set of
ids whose output file `outputs_dir/{id}` opens successfully: a
registered in-progress task answers `NotFound`; otherwise the handler
tries to open the output file and streams it if the open succeeds,
answering `NotFound` only when it does not. -/
def videos (tasks : TaskMap) (outputFiles : List TaskId) (task_id : TaskId) :
    VideosResponse :=
  if inProgressGuard tasks task_id then .notFound "video not found".toList
  else if outputFiles.contains task_id then .stream task_id
  else .notFound "video not found".toList

/-! ### Claim theorems -/

/-- The `mkRat`-spelled rational operations agree with the field
operations of `ℚ`. -/
theorem rmul_eq (a b : ℚ) : rmul a b = a * b := by
  rw [rmul, Rat.mkRat_eq_div]
  push_cast
  conv_rhs => rw [← Rat.num_div_den a, ← Rat.num_div_den b]
  rw [div_mul_div_comm]

theorem radd_eq (a b : ℚ) : radd a b = a + b := by
  have ha : ((a.den : ℚ)) ≠ 0 := by exact_mod_cast a.den_nz
  have hb : ((b.den : ℚ)) ≠ 0 := by exact_mod_cast b.den_nz
  rw [radd, Rat.mkRat_eq_div]
  push_cast
  conv_rhs => rw [← Rat.num_div_den a, ← Rat.num_div_den b]
  rw [div_add_div _ _ ha hb]
  congr 1
  ring

theorem rneg_eq (a : ℚ) : rneg a = -a := by
  rw [rneg, Rat.mkRat_eq_div]
  push_cast
  rw [neg_div, Rat.num_div_den]

/-- A successful `VideoAnalysis::new` carries the duration it was
given. -/
theorem VideoAnalysis.new?_duration {s : List RangeF} {d : ℚ}
    {v : VideoAnalysis} (h : VideoAnalysis.new? s d = some v) :
    v.duration = d := by
  cases s with
  | nil => cases h
  | cons s0 rest =>
    injection h with h2
    rw [← h2]

/-- C1: the audible list returned by the driver is *not* strictly
ascending and non-overlapping: on silence `[1,2]` over a 3-second
duration, `VideoAnalysis::new` emits the pre-silence interval `[0,1)`
twice — once from the fold (which starts at `prev = 0.0`) and once from
the explicit `insert(0, head)` — so the analysis is
`audible = [[0,1),[0,1),[2,3)]`, violating the invariant. -/
theorem C1_head_interval_duplicated :
    analyze_silence
        ["lavfi.silence_start=1".toList, "lavfi.silence_end=2".toList,
          "lavfi.silence_duration=1".toList]
        "Duration: 00:00:03.00, start: 0.000000, bitrate: 5 kb/s".toList true =
      .ok ⟨[⟨0, 1⟩, ⟨0, 1⟩, ⟨2, 3⟩], [⟨1, 2⟩], 3⟩ ∧
    audibleOrdered [⟨0, 1⟩, ⟨0, 1⟩, ⟨2, 3⟩] 3 = false := by
  decide

/-- C2 counterexample: a run whose output contains no silent intervals
does not succeed with `audible = [0..duration]`; it fails with the
`FFmpeg("Video does not contain silence")` error. -/
theorem C2_counterexample :
    analyze_silence [] "Duration: 00:00:03.00, start: 0.0".toList true =
      .err (.FFmpeg "Video does not contain silence".toList) := by
  decide

/-- C2 (amended): whenever the stderr duration parses and the stdout
loop yields no silent interval, `analyze_silence` returns the
`FFmpeg("Video does not contain silence")` error. -/
theorem C2_no_silence_is_error (lines : List (List Char)) (stderr : List Char)
    (dur : ℚ) (st : OutputParser)
    (hdur : extractDuration stderr = some dur)
    (hpl : processLines lines .Start [] = .ok (st, [])) :
    analyze_silence lines stderr true =
      .err (.FFmpeg "Video does not contain silence".toList) := by
  unfold analyze_silence
  rw [hdur, hpl]
  simp

/-- C2 witness: the amended theorem at the empty stdout run. -/
theorem C2_no_silence_is_error_witness :
    analyze_silence [] "Duration: 00:00:03.00, start: 0.0".toList true =
      .err (.FFmpeg "Video does not contain silence".toList) :=
  C2_no_silence_is_error [] "Duration: 00:00:03.00, start: 0.0".toList 3 .Start
    (by decide) (by decide)

/-- C7 counterexample: a run whose parser is in the expecting-`End`
state at end of stdout but which parsed no complete triple does *not*
synthesise `silence_end = duration` — the empty-ranges check fires
first and the run fails. -/
theorem C7_counterexample :
    analyze_silence ["lavfi.silence_start=1".toList]
        "Duration: 00:00:03.00, start: 0.0".toList true =
      .err (.FFmpeg "Video does not contain silence".toList) := by
  decide

/-- C8 counterexample: when the captured stderr holds no `Duration: `
banner, `analyze_silence` does not return a parse error — the
`find(..).unwrap()` panics. -/
theorem C8_counterexample :
    analyze_silence
        ["lavfi.silence_start=1".toList, "lavfi.silence_end=2".toList,
          "lavfi.silence_duration=1".toList]
        "no banner here".toList true = .panicDuration := by
  decide

/-- C6 counterexample: in the expecting-`silence_duration` state a line
that begins with the recognised prefix but carries the key
`silence_start` is not a hard parse error — it silently completes the
triple and the run succeeds. -/
theorem C6_counterexample :
    analyze_silence
        ["lavfi.silence_start=1".toList, "lavfi.silence_end=2".toList,
          "lavfi.silence_start=3".toList]
        "Duration: 00:00:03.00, start: 0.0".toList true =
      .ok ⟨[⟨0, 1⟩, ⟨0, 1⟩, ⟨2, 3⟩], [⟨1, 2⟩], 3⟩ := by
  decide

/-- C9 counterexample: the analyser's silencedetect filter uses a
`-40dB` noise threshold, not the claimed `-50dB`; the legacy
`detect_silence` filter does use `-50dB` but with a minimum run of
`0.05` s, not the claimed `0.1` s.  Neither invocation matches the
claimed pair of thresholds. -/
theorem C9_counterexample :
    SILENCEDETECT_NOISE = "-40dB".toList ∧
    findSub silencedetectFilter "-50dB".toList = none ∧
    findSub legacySilencedetectFilter "d=0.1".toList = none := by
  decide

/-- C9 (amended): `analyze_silence` spawns the transcoder with the
video stream disabled (`-vn`), silence detection at noise threshold
`-40dB` and minimum silent run `0.1` s, detector metadata printed to
standard output (`ametadata=mode=print:file=-`), and the encoded
output discarded (`-f null -`). -/
theorem C9_analyze_argv (input : List Char) :
    analyzeSilenceArgs input =
      ["-i".toList, input, "-vn".toList, "-hide_banner".toList, "-af".toList,
        "silencedetect=noise=-40dB:d=0.1,ametadata=mode=print:file=-".toList,
        "-f".toList, "null".toList, "-".toList] := by
  rfl

/-- Membership in a sweep's result: an entry survives `cleanup_tasks`
iff it was registered and no entry under its key passes the
`Completed`/retention test. -/
theorem mem_cleanup_iff (tasks : TaskMap) (retention now : ℤ)
    (kv : TaskId × VTask) :
    kv ∈ cleanup_tasks tasks retention now ↔
      kv ∈ tasks ∧
        ∀ kv2 ∈ tasks, kv2.1 = kv.1 → expired retention now kv2.2 = false := by
  simp only [cleanup_tasks, List.mem_filter, Bool.not_eq_true',
    ← Bool.not_eq_true (List.contains _ _), List.elem_iff, List.mem_map,
    List.mem_filter]
  constructor
  · rintro ⟨h1, h2⟩
    refine ⟨h1, fun kv2 hmem heq => ?_⟩
    by_contra hexp
    exact h2 ⟨kv2, ⟨hmem, Bool.of_not_eq_false hexp⟩, heq⟩
  · rintro ⟨h1, h2⟩
    refine ⟨h1, fun hex => ?_⟩
    obtain ⟨kv2, ⟨hmem, hexp⟩, heq⟩ := hex
    rw [h2 kv2 hmem heq] at hexp
    cases hexp

/-- C3 counterexample: a job in the terminal `Error` status, completed
long before `now - retention`, is not removed by the sweep — the sweep
only matches `Completed`. -/
theorem C3_counterexample :
    cleanup_tasks [(1, ⟨.Error "boom".toList, some 0⟩)] 60 1000000 =
      [(1, ⟨.Error "boom".toList, some 0⟩)] := by
  decide

/-- C3 (amended): the sweep removes exactly the jobs whose *status* is
`Completed { end_time }` with `end_time + retention < now`; jobs whose
terminal status is `Error` are never removed, however old. -/
theorem C3_only_completed_swept (tasks : TaskMap) (retention now : ℤ) :
    (∀ id t e, (id, t) ∈ tasks → t.status = .Completed e →
      e + retention < now → (id, t) ∉ cleanup_tasks tasks retention now) ∧
    (∀ id t, (id, t) ∈ tasks →
      (∀ t2, (id, t2) ∈ tasks → ∀ e, t2.status = .Completed e →
        ¬ e + retention < now) →
      (id, t) ∈ cleanup_tasks tasks retention now) := by
  constructor
  · intro id t e hmem hst hlt hcontra
    have h := ((mem_cleanup_iff tasks retention now (id, t)).mp hcontra).2
      (id, t) hmem rfl
    rw [expired, hst] at h
    simp only [decide_eq_false_iff_not] at h
    exact h hlt
  · intro id t hmem hnone
    refine (mem_cleanup_iff tasks retention now (id, t)).mpr ⟨hmem, ?_⟩
    rintro ⟨k2, t2⟩ hmem2 heq
    simp only at heq
    subst heq
    rw [expired]
    cases hst : t2.status with
    | Completed e =>
      simp only [decide_eq_false_iff_not]
      exact hnone t2 hmem2 e hst
    | InProgress p s => rfl
    | Error m => rfl

/-- C3 witness: a registry holding one expired `Completed` job and one
equally old `Error` job; the sweep removes the first and keeps the
second. -/
theorem C3_only_completed_swept_witness :
    (0 : ℤ) + 60 < 1000000 ∧
    (2, (⟨.Completed 0, some 0⟩ : VTask)) ∉
      cleanup_tasks [(1, ⟨.Error "boom".toList, some 0⟩),
        (2, ⟨.Completed 0, some 0⟩)] 60 1000000 ∧
    (1, (⟨.Error "boom".toList, some 0⟩ : VTask)) ∈
      cleanup_tasks [(1, ⟨.Error "boom".toList, some 0⟩),
        (2, ⟨.Completed 0, some 0⟩)] 60 1000000 :=
  ⟨by decide,
    (C3_only_completed_swept
      [(1, ⟨.Error "boom".toList, some 0⟩), (2, ⟨.Completed 0, some 0⟩)]
      60 1000000).1 2 ⟨.Completed 0, some 0⟩ 0 (by decide) rfl (by decide),
    (C3_only_completed_swept
      [(1, ⟨.Error "boom".toList, some 0⟩), (2, ⟨.Completed 0, some 0⟩)]
      60 1000000).2 1 ⟨.Error "boom".toList, some 0⟩ (by decide)
      (by
        intro t2 hmem e hst
        simp only [List.mem_cons, List.not_mem_nil, or_false,
          Prod.mk.injEq] at hmem
        rcases hmem with ⟨-, rfl⟩ | ⟨h, -⟩
        · cases hst
        · exact absurd h (by decide))⟩

/-- C4 counterexample: a job that ended in `Error` whose output file
exists is streamed, not answered with `NotFound` — the handler only
guards against `InProgress` and otherwise serves whatever file opens. -/
theorem C4_counterexample :
    videos [(7, ⟨.Error "x".toList, some 0⟩)] [7] 7 = .stream 7 := by
  decide

/-- C4 (amended): the response is the output file's byte stream iff the
job is not registered as `InProgress` and the file
`outputs_dir/{id}` opens; otherwise — registered in-progress job, or
no openable file (the usual case for unknown, errored or swept jobs) —
the response is `NotFound`.  In particular an errored or unknown id
whose output file exists is streamed. -/
theorem C4_stream_iff (tasks : TaskMap) (files : List TaskId) (id : TaskId) :
    (videos tasks files id = .stream id ↔
      inProgressGuard tasks id = false ∧ id ∈ files) ∧
    (videos tasks files id = .stream id ∨
      videos tasks files id = .notFound "video not found".toList) := by
  unfold videos
  by_cases h1 : inProgressGuard tasks id
  · rw [if_pos h1]
    exact ⟨⟨(fun h => nomatch h), fun h => absurd h1 (by rw [h.1]; decide)⟩,
      .inr rfl⟩
  · rw [if_neg h1]
    rw [Bool.not_eq_true] at h1
    by_cases h2 : files.contains id
    · rw [if_pos h2]
      exact ⟨⟨fun _ => ⟨h1, List.elem_iff.mp h2⟩, fun _ => rfl⟩, .inl rfl⟩
    · rw [if_neg h2]
      exact ⟨⟨(fun h => nomatch h),
        fun h => absurd (List.elem_iff.mpr h.2) h2⟩, .inr rfl⟩

/-- C4 witness: the characterisation applied to a one-job registry —
a completed job with an existing output file is streamed. -/
theorem C4_stream_iff_witness :
    videos [(3, ⟨.Completed 0, some 0⟩)] [3] 3 = .stream 3 :=
  ((C4_stream_iff [(3, ⟨.Completed 0, some 0⟩)] [3] 3).1).mpr
    ⟨by decide, by decide⟩

/-- C5 counterexample: admission with a colliding freshly generated id
does not fail and retry — it replaces the existing job under that id
and returns the id as a success. -/
theorem C5_counterexample :
    new_task [(5, ⟨.Completed 9, some 9⟩)] 5 ⟨.InProgress 0 0, none⟩ =
      ([(5, ⟨.InProgress 0 0, none⟩)], 5) := by
  decide

/-- Lemma: `find?` on a key distinct from the one removed by the
`mapInsert` filter sees the original list. -/
theorem find?_filter_ne (m : TaskMap) (k k2 : TaskId) (hne : k2 ≠ k) :
    List.find? (fun kv => kv.1 == k2)
        (m.filter (fun kv => decide (kv.1 ≠ k))) =
      List.find? (fun kv => kv.1 == k2) m := by
  induction m with
  | nil => rfl
  | cons kv rest ih =>
    rcases kv with ⟨kk, tt⟩
    by_cases hk : kk = k
    · subst hk
      rw [List.filter_cons_of_neg (by simp),
        List.find?_cons_of_neg _ (by simpa using fun h => hne h.symm)]
      exact ih
    · rw [List.filter_cons_of_pos (by simpa using hk)]
      by_cases hk2 : kk = k2
      · rw [List.find?_cons_of_pos _ (by simpa using hk2),
          List.find?_cons_of_pos _ (by simpa using hk2)]
      · rw [List.find?_cons_of_neg _ (by simpa using hk2),
          List.find?_cons_of_neg _ (by simpa using hk2)]
        exact ih

/-- C5 (amended): `new_task` performs no collision check: it
unconditionally inserts the task under the generated id — replacing any
existing binding of that id — leaves every other id untouched, and
returns the id as a success. -/
theorem C5_insert_replaces (m : TaskMap) (k : TaskId) (v : VTask) :
    (new_task m k v).2 = k ∧
    mapGet (new_task m k v).1 k = some v ∧
    ∀ k2, k2 ≠ k → mapGet (new_task m k v).1 k2 = mapGet m k2 := by
  refine ⟨rfl, by simp [new_task, mapInsert, mapGet], fun k2 hne => ?_⟩
  simp only [new_task, mapInsert, mapGet]
  rw [List.find?_cons_of_neg _ (by simpa using fun h => hne h.symm)]
  rw [find?_filter_ne m k k2 hne]

/-- C5 witness: the amended theorem at the colliding admission of the
counterexample. -/
theorem C5_insert_replaces_witness :
    mapGet (new_task [(5, ⟨.Completed 9, some 9⟩)] 5
        ⟨.InProgress 0 0, none⟩).1 5 = some ⟨.InProgress 0 0, none⟩ ∧
    mapGet (new_task [(5, ⟨.Completed 9, some 9⟩)] 5
        ⟨.InProgress 0 0, none⟩).1 8 =
      mapGet [(5, ⟨.Completed 9, some 9⟩)] 8 :=
  ⟨(C5_insert_replaces [(5, ⟨.Completed 9, some 9⟩)] 5
      ⟨.InProgress 0 0, none⟩).2.1,
    (C5_insert_replaces [(5, ⟨.Completed 9, some 9⟩)] 5
      ⟨.InProgress 0 0, none⟩).2.2 8 (by decide)⟩

/-- C6 (amended): lines without the `lavfi` prefix are skipped; in the
expecting-`silence_start` and expecting-`silence_end` states a line not
carrying the expected key (`parse_line = Ok(None)`, which covers every
recognised-prefix line with the wrong key) is a hard `InvalidData`
error; but in the expecting-`silence_duration` state *any* line —
whatever key it carries — silently completes the triple and emits the
held interval. -/
theorem C6_parser_steps (line : List Char) :
    (startsWithL line "lavfi".toList = false →
      ∀ ls st acc, processLines (line :: ls) st acc = processLines ls st acc) ∧
    (parse_line line "start".toList = .ok none →
      OutputParser.next .Start line = .error (.invalidData line)) ∧
    (∀ s, parse_line line "end".toList = .ok none →
      OutputParser.next (.End s) line = .error (.invalidData line)) ∧
    (∀ s e, OutputParser.next (.Duration s e) line = .ok (.Start, some ⟨s, e⟩)) ∧
    (∀ s e ls acc, startsWithL line "lavfi".toList = true →
      processLines (line :: ls) (.Duration s e) acc =
        processLines ls .Start (acc ++ [⟨s, e⟩])) := by
  refine ⟨fun h ls st acc => ?_, fun h => ?_, fun s h => ?_,
    fun s e => rfl, fun s e ls acc h => ?_⟩
  · simp only [processLines]
    rw [h, if_neg (by decide)]
  · simp only [OutputParser.next]
    rw [h]
  · simp only [OutputParser.next]
    rw [h]
  · simp only [processLines]
    rw [h, if_pos rfl]
    rfl

/-- C6 witness: the step characterisation at concrete lines — a
`frame=` line is skipped; `silence_end` while expecting `silence_start`
(and vice versa) errors; `lavfi.silence_start=3` while expecting
`silence_duration` completes the triple `[1,2]`. -/
theorem C6_parser_steps_witness :
    processLines ["frame=1".toList] .Start [] = processLines [] .Start [] ∧
    OutputParser.next .Start "lavfi.silence_end=2".toList =
      .error (.invalidData "lavfi.silence_end=2".toList) ∧
    OutputParser.next (.End 1) "lavfi.silence_start=2".toList =
      .error (.invalidData "lavfi.silence_start=2".toList) ∧
    OutputParser.next (.Duration 1 2) "lavfi.silence_start=3".toList =
      .ok (.Start, some ⟨1, 2⟩) ∧
    processLines ["lavfi.silence_start=3".toList] (.Duration 1 2) [] =
      processLines [] .Start [⟨1, 2⟩] :=
  ⟨(C6_parser_steps "frame=1".toList).1 (by decide) [] .Start [],
    (C6_parser_steps "lavfi.silence_end=2".toList).2.1 (by decide),
    (C6_parser_steps "lavfi.silence_start=2".toList).2.2.1 1 (by decide),
    (C6_parser_steps "lavfi.silence_start=3".toList).2.2.2.1 1 2,
    (C6_parser_steps "lavfi.silence_start=3".toList).2.2.2.2 1 2 [] []
      (by decide)⟩

/-- C7 (amended): when the stdout loop ends in the expecting-`End`
state *and at least one complete silent triple was parsed*, the missing
end is synthesised as the media duration and the final silent interval
runs from the dangling start to `duration`; with no complete triple the
empty-ranges check fires first and the run fails instead. -/
theorem C7_end_synthesis (lines : List (List Char)) (stderr : List Char)
    (dur s : ℚ) (ranges : List RangeF)
    (hdur : extractDuration stderr = some dur)
    (hpl : processLines lines .Start [] = .ok (.End s, ranges))
    (hne : ranges ≠ []) :
    analyze_silence lines stderr true =
      .ok ⟨audibleOf (ranges ++ [⟨s, dur⟩]) dur, ranges ++ [⟨s, dur⟩], dur⟩ := by
  unfold analyze_silence
  rw [hdur, hpl]
  rcases ranges with _ | ⟨r, rs⟩
  · exact absurd rfl hne
  · rw [if_neg (by decide)]
    rfl

/-- C7 witness: a run with one complete silent triple `[0,1]` and a
dangling `silence_start=2` over a 3-second duration: the final silent
interval is synthesised as `[2,3]`. -/
theorem C7_end_synthesis_witness :
    analyze_silence
        ["lavfi.silence_start=0".toList, "lavfi.silence_end=1".toList,
          "lavfi.silence_duration=1".toList, "lavfi.silence_start=2".toList]
        "Duration: 00:00:03.00, start: 0.0".toList true =
      .ok ⟨audibleOf [⟨0, 1⟩, ⟨2, 3⟩] 3, [⟨0, 1⟩, ⟨2, 3⟩], 3⟩ :=
  C7_end_synthesis
    ["lavfi.silence_start=0".toList, "lavfi.silence_end=1".toList,
      "lavfi.silence_duration=1".toList, "lavfi.silence_start=2".toList]
    "Duration: 00:00:03.00, start: 0.0".toList 3 2 [⟨0, 1⟩]
    (by decide) (by decide) (by decide)

/-- C8 (amended): the total duration is parsed from the captured
stderr — the first `Duration: ` occurrence, up to the following comma,
split on `:` as `H:M:S` — and every successful analysis carries exactly
that duration; but when stderr holds no `Duration: ` occurrence the
`find(..).unwrap()` *panics*, it does not return a parse error. -/
theorem C8_duration_panic (lines : List (List Char)) (stderr : List Char) :
    (findSub stderr "Duration: ".toList = none →
      analyze_silence lines stderr true = .panicDuration) ∧
    (∀ v, analyze_silence lines stderr true = .ok v →
      extractDuration stderr = some v.duration) := by
  constructor
  · intro h
    have hdur : extractDuration stderr = none := by
      unfold extractDuration
      rw [h]
    unfold analyze_silence
    rw [hdur]
    rfl
  · intro v hv
    unfold analyze_silence at hv
    rw [if_neg (by decide)] at hv
    split at hv
    · exact nomatch hv
    · rename_i dur hdur
      split at hv
      · exact nomatch hv
      · rename_i st ranges hpl
        split at hv
        · exact nomatch hv
        · rename_i hemp
          cases st with
          | Start =>
            dsimp only [] at hv
            cases hnew : VideoAnalysis.new? ranges dur with
            | none => rw [hnew] at hv; exact nomatch hv
            | some v2 =>
              rw [hnew] at hv
              injection hv with hv2
              rw [← hv2, VideoAnalysis.new?_duration hnew]
              exact hdur
          | End s2 =>
            dsimp only [] at hv
            cases hnew : VideoAnalysis.new? (ranges ++ [⟨s2, dur⟩]) dur with
            | none => rw [hnew] at hv; exact nomatch hv
            | some v2 =>
              rw [hnew] at hv
              injection hv with hv2
              rw [← hv2, VideoAnalysis.new?_duration hnew]
              exact hdur
          | Duration a b =>
            dsimp only [] at hv
            cases hnew : VideoAnalysis.new? ranges dur with
            | none => rw [hnew] at hv; exact nomatch hv
            | some v2 =>
              rw [hnew] at hv
              injection hv with hv2
              rw [← hv2, VideoAnalysis.new?_duration hnew]
              exact hdur

/-- C8 witness: the panic branch at a bannerless stderr, and the
parsed-duration equation at the concrete 3-second run. -/
theorem C8_duration_panic_witness :
    analyze_silence ["lavfi.silence_start=1".toList] "oops".toList true =
      .panicDuration ∧
    extractDuration "Duration: 00:00:03.00, start: 0.000000, bitrate: 5 kb/s".toList =
      some (VideoAnalysis.mk [⟨0, 1⟩, ⟨0, 1⟩, ⟨2, 3⟩] [⟨1, 2⟩] 3).duration :=
  ⟨(C8_duration_panic ["lavfi.silence_start=1".toList] "oops".toList).1
      (by decide),
    (C8_duration_panic
        ["lavfi.silence_start=1".toList, "lavfi.silence_end=2".toList,
          "lavfi.silence_duration=1".toList]
        "Duration: 00:00:03.00, start: 0.000000, bitrate: 5 kb/s".toList).2
      ⟨[⟨0, 1⟩, ⟨0, 1⟩, ⟨2, 3⟩], [⟨1, 2⟩], 3⟩ (by decide)⟩

/-- C10: the unguarded `silence[0]` and `silence.last().unwrap()`
inside `VideoAnalysis::new` can never panic: `analyze_silence` reaches
the construction only when at least one silent interval was parsed,
because the empty-`ranges` case returns the `FFmpeg` error first (and
the `End`-state synthesis only ever appends). -/
theorem C10_new_never_panics (lines : List (List Char)) (stderr : List Char)
    (exitSuccess : Bool) :
    analyze_silence lines stderr exitSuccess ≠ .panicNew := by
  unfold analyze_silence
  cases exitSuccess with
  | false => exact fun h => nomatch h
  | true =>
    rw [if_neg (by decide)]
    split
    · exact fun h => nomatch h
    · split
      · exact fun h => nomatch h
      · rename_i dur st ranges hpl
        split
        · exact fun h => nomatch h
        · rename_i hemp
          rcases ranges with _ | ⟨r, rs⟩
          · exact absurd rfl hemp
          · cases st with
            | Start => exact fun h => nomatch h
            | End s => exact fun h => nomatch h
            | Duration a b => exact fun h => nomatch h

end Voice
